import Mathlib

/-!
Verification of the beartype AST transformation engine.

This file gives a shallow embedding of two source files:

- `beartype/claw/_ast/clawastmain.py`: the `BeartypeNodeTransformer` class,
  a visitor that decorates typed callables and classes and inserts a
  preamble import statement into the module body.
- `beartype/_util/func/utilfunccode.py`: the `get_func_code_or_none`
  getter recovering the source text of a lambda callable.

Python statements are embedded as the inductive `Stmt`; the transformer
instance state (configuration handle, module name, lexical scope name and
lexical scope stack) is threaded explicitly through the visitor functions,
which additionally emit a trace of scope push and pop events so that the
push/pop discipline of `generic_visit` can be stated and proved.

Helpers of the repository that are referenced by `clawastmain.py` but whose
defining submodules are not part of the studied sources (the annotation
test `is_node_callable_typed`, the decoration injector
`_decorate_node_beartype`, the scope test `_is_scope_class_beartype`, the
node factory `make_node_importfrom` and the node-type set
`TYPES_NODE_LEXICAL_SCOPE`) are modelled from the specification and marked
as such in their doc comments.
-/

namespace Beartype

/-- Source position metadata carried by every statement node
(`lineno` and `col_offset` in the Python ast module). -/
structure Pos where
  lineno : Nat
  col_offset : Nat
deriving DecidableEq

/-- A decoration attached to a class or callable node. The `beartype`
constructor is the synthetic decoration reference injected by the
transformer; it carries the configuration handle (identity-compared, so
embedded as a numeric id) and the source position copied from the node it
decorates. The `user` constructor stands for any preexisting decoration. -/
inductive Decoration where
  | beartype (conf : Nat) (pos : Pos)
  | user (name : String)
deriving DecidableEq

/-- One formal parameter of a callable node: a name plus an optional type
annotation (the annotation itself is opaque here, kept as a string). -/
structure Arg where
  name : String
  ann : Option String
deriving DecidableEq

/-- Statement nodes of the embedded syntax tree, mirroring the ast node
kinds that `clawastmain.py` inspects:

- `classdef`: an `ast.ClassDef` with name, decorator list, body.
- `functiondef`: an `ast.FunctionDef` with name, parameters, optional
  return annotation, decorator list, body.
- `importfrom`: an `ast.ImportFrom` with optional source module name and
  imported attribute names.
- `exprConstant`: an `ast.Expr` statement whose value is an
  `ast.Constant` (the shape the docstring test of `visit_Module` checks).
- `stmtOther`: any other statement, with its list of child statements
  (covering compound statements such as `if` or `with` blocks). -/
inductive Stmt where
  | classdef (name : String) (decorator_list : List Decoration)
      (body : List Stmt) (pos : Pos)
  | functiondef (name : String) (args : List Arg) (returns : Option String)
      (decorator_list : List Decoration) (body : List Stmt) (pos : Pos)
  | importfrom (module_name : Option String) (names : List String) (pos : Pos)
  | exprConstant (pos : Pos)
  | stmtOther (body : List Stmt) (pos : Pos)

/-- An `ast.Module` root node: the top-level statement sequence. The
position field models the code metadata that `visit_Module` may copy from
the module node itself (the `node_prev` default). -/
structure ModuleNode where
  body : List Stmt
  pos : Pos

/-- Source position of a statement node. -/
def stmtPos : Stmt → Pos
  | .classdef _ _ _ p => p
  | .functiondef _ _ _ _ _ p => p
  | .importfrom _ _ p => p
  | .exprConstant p => p
  | .stmtOther _ p => p

/-- The kinds of scope-introducing node types pushed on the lexical scope
stack (`TYPES_NODE_LEXICAL_SCOPE` holds the `ClassDef` and `FunctionDef`
node types; the stack stores node types, embedded as this enumeration). -/
inductive ScopeType where
  | classType
  | functionType
deriving DecidableEq

/-- Scope push and pop events, recorded by the visitor so that the
push/pop pairing of `generic_visit` can be stated. -/
inductive Event where
  | enter
  | exit
deriving DecidableEq

/-- The mutable state of a `BeartypeNodeTransformer` instance, as set up by
`__init__`: the configuration handle `_conf_beartype` (embedded as an id),
`_module_name_beartype`, `_scope_name_beartype` (initialized to the module
name) and `_scope_stack_beartype` (initialized empty). -/
structure TState where
  conf : Nat
  module_name : String
  scope_name : String
  scope_stack : List ScopeType
deriving DecidableEq

/-- Modelled from the spec: the scope test `_is_scope_class_beartype`
(defined in the utility mixin, outside the studied sources). Per section
4.1 of the spec, it returns true iff the top frame of the scope stack is a
class frame. -/
def _is_scope_class_beartype (s : TState) : Bool :=
  s.scope_stack.head? = some ScopeType.classType

/-- Modelled from the spec: the annotation test `is_node_callable_typed`
(defined in `beartype._util.ast.utilasttest`, outside the studied
sources). Per section 4.2 of the spec, it returns true iff the node
declares a return-type annotation or at least one parameter-type
annotation. -/
def is_node_callable_typed (args : List Arg) (returns : Option String) : Bool :=
  returns.isSome || args.any (fun a => a.ann.isSome)

/-- Modelled from the spec: the decoration injector
`_decorate_node_beartype` (defined in the utility mixin, outside the
studied sources). Per section 4.3 of the spec, it adds one decoration
entry referencing the beartype decorator and the current configuration,
with source position metadata copied from the decorated node. -/
def _decorate_node_beartype (decorator_list : List Decoration)
    (conf : Nat) (pos : Pos) : List Decoration :=
  decorator_list ++ [Decoration.beartype conf pos]

/-- Modelled from the spec: the node factory `make_node_importfrom`
(defined in `beartype._util.ast.utilastmake`, outside the studied
sources). It synthesizes an import-from statement naming the given module
and attribute, with source position metadata copied from the passed
sibling node. -/
def make_node_importfrom (module_name : String) (source_attr_name : String)
    (sibling_pos : Pos) : Stmt :=
  Stmt.importfrom (some module_name) [source_attr_name] sibling_pos

/-!
The visitor recursion below is measured by `stmtSize`, a structural size
counting statement nodes only: it ignores decorator lists, so that the
growth of a decorator list by `_decorate_node_beartype` leaves the measure
of the node unchanged.
-/

mutual

/-- Structural size of a statement, counting statement nodes only. -/
def stmtSize : Stmt → Nat
  | .classdef _ _ b _ => listSize b + 1
  | .functiondef _ _ _ _ b _ => listSize b + 1
  | .importfrom _ _ _ => 1
  | .exprConstant _ => 1
  | .stmtOther b _ => listSize b + 1

/-- Structural size of a statement list, counting statement nodes only. -/
def listSize : List Stmt → Nat
  | [] => 0
  | st :: rest => stmtSize st + listSize rest

end

/-- Every statement has positive size (a proof term packaged as a
definition, used by the termination arguments below). -/
def stmtSize_pos (st : Stmt) : 0 < stmtSize st := by
  cases st <;> simp [stmtSize]

/-- Lexicographic step on pairs of naturals whose first components agree
only up to inequality: this is the shape of every termination obligation
of the visitor functions below (a proof term packaged as a definition). -/
def lexStep {a b n m : Nat} (hab : a ≤ b) (hnm : n < m) :
    Prod.Lex (fun x y : Nat => x < y) (fun x y : Nat => x < y) (a, n) (b, m) := by
  rcases Nat.lt_or_ge a b with h | h
  · exact Prod.Lex.left _ _ h
  · have hh : a = b := Nat.le_antisymm hab h
    subst hh
    exact Prod.Lex.right _ hnm

/-!
The visitor of `BeartypeNodeTransformer`, embedded as five mutually
recursive functions. Each takes the current transformer state and returns
the transformed node, the state after the visit, and the trace of scope
push and pop events performed during the visit.
-/

mutual

/-- The dispatch of `ast.NodeTransformer.visit`: class nodes go to
`visit_ClassDef`, callable nodes to `visit_FunctionDef`, every other
statement to `generic_visit` (the visitor methods defined on
`BeartypeNodeTransformer`, lines 82 and 464 to 548). -/
def visit (s : TState) (st : Stmt) : Stmt × TState × List Event :=
  match st with
  | .classdef name decos body pos => visit_ClassDef s name decos body pos
  | .functiondef name args ret decos body pos =>
      visit_FunctionDef s name args ret decos body pos
  | st => generic_visit s st
termination_by (stmtSize st, 2)
decreasing_by
  · exact lexStep (by simp [stmtSize]) (by omega)
  · exact lexStep (by simp [stmtSize]) (by omega)
  all_goals exact lexStep (Nat.le_refl _) (by omega)

/-- `visit_ClassDef` (lines 466 to 491): add a new child decoration node
to this parent class node (line 486), then recursively transform all
child nodes via `generic_visit` (line 491). -/
def visit_ClassDef (s : TState) (name : String) (decos : List Decoration)
    (body : List Stmt) (pos : Pos) : Stmt × TState × List Event :=
  generic_visit s (.classdef name (_decorate_node_beartype decos s.conf pos) body pos)
termination_by (listSize body + 1, 1)
decreasing_by
  exact lexStep (by simp [stmtSize]) (by omega)

/-- `visit_FunctionDef` (lines 494 to 548): decorate iff the immediate
scope is not a class and the callable is typed (lines 515 to 543), then
recursively transform all child nodes via `generic_visit` (line 548). -/
def visit_FunctionDef (s : TState) (name : String) (args : List Arg)
    (ret : Option String) (decos : List Decoration) (body : List Stmt)
    (pos : Pos) : Stmt × TState × List Event :=
  let decos' :=
    if !_is_scope_class_beartype s && is_node_callable_typed args ret
    then _decorate_node_beartype decos s.conf pos
    else decos
  generic_visit s (.functiondef name args ret decos' body pos)
termination_by (listSize body + 1, 1)
decreasing_by
  exact lexStep (by simp [stmtSize]) (by omega)

/-- `generic_visit` (lines 234 to 290): for a scope-declaring node, save
the scope name, append the node basename to the scope name, push the node
type on the scope stack, visit all children, restore the scope name and
pop the stack (lines 255 to 281); for any other node, visit all children
with the stack unchanged (lines 284 to 287). -/
def generic_visit (s : TState) (st : Stmt) : Stmt × TState × List Event :=
  match st with
  | .classdef name decos body pos =>
      let scope_name_old := s.scope_name
      let s1 : TState := { s with
        scope_name := s.scope_name ++ "." ++ name,
        scope_stack := ScopeType.classType :: s.scope_stack }
      let r := visitList s1 body
      let s3 : TState := { r.2.1 with
        scope_name := scope_name_old,
        scope_stack := r.2.1.scope_stack.tail }
      (.classdef name decos r.1 pos, s3, Event.enter :: (r.2.2 ++ [Event.exit]))
  | .functiondef name args ret decos body pos =>
      let scope_name_old := s.scope_name
      let s1 : TState := { s with
        scope_name := s.scope_name ++ "." ++ name,
        scope_stack := ScopeType.functionType :: s.scope_stack }
      let r := visitList s1 body
      let s3 : TState := { r.2.1 with
        scope_name := scope_name_old,
        scope_stack := r.2.1.scope_stack.tail }
      (.functiondef name args ret decos r.1 pos, s3,
        Event.enter :: (r.2.2 ++ [Event.exit]))
  | .stmtOther body pos =>
      let r := visitList s body
      (.stmtOther r.1 pos, r.2.1, r.2.2)
  | st => (st, s, [])
termination_by (stmtSize st, 0)
decreasing_by
  all_goals exact Prod.Lex.left _ _ (by simp [stmtSize])

/-- The child iteration of the superclass `generic_visit`, visiting each
child statement in order through `visit`. -/
def visitList (s : TState) (l : List Stmt) : List Stmt × TState × List Event :=
  match l with
  | [] => ([], s, [])
  | st :: rest =>
      let r1 := visit s st
      let r2 := visitList r1.2.1 rest
      (r1.1 :: r2.1, r2.2.1, r1.2.2 ++ r2.2.2)
termination_by (listSize l, 3)
decreasing_by
  · exact lexStep (by simp [listSize]) (by omega)
  · exact Prod.Lex.left _ _ (by have := stmtSize_pos st; simp [listSize]; omega)

end

/-- The statement test of the `visit_Module` scan loop (lines 350 to 378):
a child node is skipped over iff it is an expression statement whose value
is a constant (the module docstring shape) or an import of the form
`from __future__ import ...`. -/
def is_skip_stmt : Stmt → Bool
  | .exprConstant _ => true
  | .importfrom m _ _ => m = some ("__future__")
  | _ => false

/-- The scan loop of `visit_Module` (lines 323 to 384): the number of
leading child nodes satisfying `is_skip_stmt`, which is the index
`node_index_import_beartype_attrs` at which the import statement is to be
inserted. -/
def scan_index : List Stmt → Nat
  | [] => 0
  | st :: rest => if is_skip_stmt st then scan_index rest + 1 else 0

/-- The module whose attributes the inserted preamble imports (line 425). -/
def preamble_module_name : String := "beartype.claw._ast._clawaststar"

/-- `visit_Module` (lines 293 to 462): compute the insertion index by the
scan loop; if it differs from the child count, synthesize the preamble
node (an import) with position metadata copied from `node_prev` (which at that
point is the child node at the insertion index, the module node itself
being only the default for an empty body) and insert it at the insertion
index; finally recursively transform all child nodes via `generic_visit`
(which, the `Module` node type not being in `TYPES_NODE_LEXICAL_SCOPE`,
visits the children with the scope stack unchanged). -/
def visit_Module (s : TState) (m : ModuleNode) : ModuleNode × TState × List Event :=
  let node_index_import_beartype_attrs := scan_index m.body
  let node_index_last := m.body.length
  let body1 :=
    if node_index_import_beartype_attrs = node_index_last then m.body
    else
      let node_prev_pos :=
        match m.body[node_index_import_beartype_attrs]? with
        | some st => stmtPos st
        | none => m.pos
      m.body.insertIdx node_index_import_beartype_attrs
        (make_node_importfrom preamble_module_name "*" node_prev_pos)
  let r := visitList s body1
  ({ body := r.1, pos := m.pos }, r.2.1, r.2.2)

/-- Number of scope pushes in a trace. -/
def countEnter : List Event → Nat
  | [] => 0
  | Event.enter :: t => countEnter t + 1
  | Event.exit :: t => countEnter t

/-- Number of scope pops in a trace. -/
def countExit : List Event → Nat
  | [] => 0
  | Event.enter :: t => countExit t
  | Event.exit :: t => countExit t + 1

/-- Run a trace against a stack depth: a push increments the depth, a pop
decrements it, and a pop at depth zero is an underflow yielding `none`. -/
def depthRun : Nat → List Event → Option Nat
  | d, [] => some d
  | d, Event.enter :: t => depthRun (d + 1) t
  | 0, Event.exit :: _ => none
  | d + 1, Event.exit :: t => depthRun d t

/-- Whether a decoration is the synthetic beartype decoration reference. -/
def decoIsBeartype : Decoration → Bool
  | .beartype _ _ => true
  | .user _ => false

/-- Number of beartype decoration references in a decorator list. -/
def beartypeDecoCount (l : List Decoration) : Nat :=
  (l.filter decoIsBeartype).length

mutual

/-- A pristine statement carries no beartype decoration reference
anywhere: the shape of the not-yet-transformed input trees. -/
def pristineStmt : Stmt → Bool
  | .classdef _ d b _ => d.all (fun x => !decoIsBeartype x) && pristineList b
  | .functiondef _ _ _ d b _ => d.all (fun x => !decoIsBeartype x) && pristineList b
  | .stmtOther b _ => pristineList b
  | _ => true

/-- Every statement of the list is pristine. -/
def pristineList : List Stmt → Bool
  | [] => true
  | st :: rest => pristineStmt st && pristineList rest

end

mutual

/-- Every class definition node in the tree carries exactly one beartype
decoration reference on the class node itself. -/
def classesDecoratedOnce : Stmt → Bool
  | .classdef _ d b _ => (beartypeDecoCount d == 1) && classesList b
  | .functiondef _ _ _ _ b _ => classesList b
  | .stmtOther b _ => classesList b
  | _ => true

/-- `classesDecoratedOnce` over a statement list. -/
def classesList : List Stmt → Bool
  | [] => true
  | st :: rest => classesDecoratedOnce st && classesList rest

end

/-- The own decorator list of a function definition node carries no
beartype decoration reference (trivially true for other nodes). -/
def funcOwnUndecorated : Stmt → Bool
  | .functiondef _ _ _ d _ _ => d.all (fun x => !decoIsBeartype x)
  | _ => true

mutual

/-- For every class definition node in the tree, no function definition
node appearing directly in that class body carries a beartype decoration
reference of its own. -/
def methodsUndecorated : Stmt → Bool
  | .classdef _ _ b _ => b.all funcOwnUndecorated && methodsList b
  | .functiondef _ _ _ _ b _ => methodsList b
  | .stmtOther b _ => methodsList b
  | _ => true

/-- `methodsUndecorated` over a statement list. -/
def methodsList : List Stmt → Bool
  | [] => true
  | st :: rest => methodsUndecorated st && methodsList rest

end

/-- Whether a statement is the synthetic preamble import node: an
ImportFrom of the attribute `*` from the beartype preamble submodule. -/
def is_preamble_stmt : Stmt → Bool
  | .importfrom m ns _ => m == some preamble_module_name && ns == ["*"]
  | _ => false

/-- Number of preamble import nodes in a statement list. -/
def preambleCount (l : List Stmt) : Nat :=
  (l.filter is_preamble_stmt).length

/-- Number of leading `from __future__` import statements of a list,
following the wording of the specification of the preamble scan. -/
def spec_future_prefix : List Stmt → Nat
  | .importfrom m _ _ :: rest =>
      if m == some ("__future__") then spec_future_prefix rest + 1 else 0
  | _ => 0

/-- The insertion cursor as described by the specification wording of the
preamble scan, read as a two-phase scan: advance past a single leading
docstring-only constant expression statement, then past the consecutive
future imports immediately following it (or at the very start if there is
no docstring), and stop there. This definition follows the words of the
specification and is compared against the scan the code performs. -/
def claim_cursor (body : List Stmt) : Nat :=
  match body with
  | .exprConstant _ :: rest => 1 + spec_future_prefix rest
  | _ => spec_future_prefix body

/-- An arbitrary initial transformer state used by concrete examples:
configuration id 0, module name `mod`. -/
def s0 : TState := ⟨0, "mod", "mod", []⟩

/-!
Embedding of `beartype/_util/func/utilfunccode.py`: the
`get_func_code_or_none` getter (Python at least 3.9 branch, lines 258 to
413) and its helper visitor `_LambdaNodeUnparser` (lines 417 to 500).

The abstract syntax tree parsed from the declaring file is abstracted to
the shape `_LambdaNodeUnparser` inspects: lambda nodes carry their
starting line number and the text that `ast.unparse` yields for them,
every other node only carries its children in source order.
-/

/-- Abstracted parsed tree of a source file: lambda nodes with line
number, unparsed text and children, and all other nodes with children. -/
inductive LTree where
  | lam (lineno : Nat) (code : String) (children : List LTree)
  | node (children : List LTree)

mutual

/-- `_LambdaNodeUnparser.visit_Lambda` (lines 464 to 500), folded over the
whole visitation: collect the unparsed text of every lambda node starting
at the target line, in the pre-order the visitor encounters them, and cut
off any subtree rooted at a lambda starting on a later line. -/
def visit_Lambda (target : Nat) : LTree → List String
  | .lam ln code children =>
      if ln = target then code :: visitLambdaList target children
      else if ln < target then visitLambdaList target children
      else []
  | .node children => visitLambdaList target children

/-- The visitation of a child list by `ast.NodeVisitor.generic_visit`,
visiting children in order. -/
def visitLambdaList (target : Nat) : List LTree → List String
  | [] => []
  | t :: ts => visit_Lambda target t ++ visitLambdaList target ts

end

/-- Maximum size of files safely parsed for lambda declarations
(lines 263 to 267). -/
def _LAMBDA_CODE_FILESIZE_MAX : Nat := 1000000

/-- The environment a `get_func_code_or_none` call runs in, abstracting
the external lookups the getter performs:

- `is_lambda`: the result of `is_func_lambda`.
- `firstlineno`: the `co_firstlineno` of the code object of the callable.
- `file_code`: the result of `get_func_file_code_lines_or_none`, `none`
  when the callable is only defined in memory.
- `parsed`: the tree `ast.parse` yields for `file_code`.
- `fallback`: the result of `get_func_code_lines_or_none`, the
  line-oriented lookup the getter falls back to. -/
structure FuncEnv where
  is_lambda : Bool
  firstlineno : Nat
  file_code : Option String
  parsed : LTree
  fallback : Option String

/-- The kinds of non-fatal warnings `get_func_code_or_none` can emit on
the paths modelled here. -/
inductive WarnKind where
  | filesize
  | ambiguous
  | notfound
deriving DecidableEq

/-- `get_func_code_or_none` (lines 270 to 413): for a lambda defined by a
nonempty file, refuse to parse oversized files with a file-size warning;
otherwise collect the lambdas starting on the recorded line, warn on
ambiguity and return the first collected text, warn when none is found;
on every other path fall back to the line-oriented lookup. The returned
pair holds the result and the warnings emitted by this getter itself. -/
def get_func_code_or_none (env : FuncEnv) : Option String × List WarnKind :=
  if env.is_lambda then
    match env.file_code with
    | some code =>
        if code.length ≠ 0 then
          if _LAMBDA_CODE_FILESIZE_MAX ≤ code.length then
            (env.fallback, [WarnKind.filesize])
          else
            match visit_Lambda env.firstlineno env.parsed with
            | [] => (env.fallback, [WarnKind.notfound])
            | c :: rest =>
                (some c, if rest.isEmpty then [] else [WarnKind.ambiguous])
        else (env.fallback, [])
    | none => (env.fallback, [])
  else (env.fallback, [])

/-!
State restoration: every visit returns the transformer state it received,
because `generic_visit` pairs every scope push with a pop and restores the
saved scope name on every path.
-/

mutual

/-- Visiting any statement restores the transformer state. -/
theorem visit_state : ∀ (s : TState) (st : Stmt), (visit s st).2.1 = s
  | s, .classdef n d b p => by
      have h := visitList_state { s with
        scope_name := s.scope_name ++ "." ++ n,
        scope_stack := ScopeType.classType :: s.scope_stack } b
      simp [visit, visit_ClassDef, generic_visit, h]
  | s, .functiondef n a r d b p => by
      have h := visitList_state { s with
        scope_name := s.scope_name ++ "." ++ n,
        scope_stack := ScopeType.functionType :: s.scope_stack } b
      simp [visit, visit_FunctionDef, generic_visit, h]
  | s, .importfrom m ns p => by simp [visit, generic_visit]
  | s, .exprConstant p => by simp [visit, generic_visit]
  | s, .stmtOther b p => by
      have h := visitList_state s b
      simp [visit, generic_visit, h]
termination_by s st => (stmtSize st, 0)
decreasing_by
  all_goals exact Prod.Lex.left _ _ (by simp [stmtSize])

/-- Visiting a statement list restores the transformer state. -/
theorem visitList_state : ∀ (s : TState) (l : List Stmt), (visitList s l).2.1 = s
  | s, [] => by simp [visitList]
  | s, st :: rest => by
      have h1 := visit_state s st
      have h2 := visitList_state (visit s st).2.1 rest
      rw [h1] at h2
      simp [visitList, h1, h2]
termination_by s l => (listSize l, 1)
decreasing_by
  · exact lexStep (by simp [listSize]) (by omega)
  · exact Prod.Lex.left _ _ (by have := stmtSize_pos st; simp [listSize]; omega)

end

/-- With the state restored after every child visit, the node component of
`visitList` is an elementwise map of `visit` at the entry state. -/
theorem visitList_eq_map : ∀ (s : TState) (l : List Stmt),
    (visitList s l).1 = l.map (fun st => (visit s st).1)
  | s, [] => by simp [visitList]
  | s, st :: rest => by
      have h1 := visit_state s st
      have h2 := visitList_eq_map s rest
      simp [visitList, h1, h2]

/-!
Trace balance: the scope pushes and pops recorded by the visitor form a
balanced bracket sequence, so at every point of the traversal the scope
stack depth equals the nesting depth of class and function scopes.
-/

theorem countEnter_append (a b : List Event) :
    countEnter (a ++ b) = countEnter a + countEnter b := by
  induction a with
  | nil => simp [countEnter]
  | cons e t ih =>
      cases e <;> simp [countEnter, ih]
      omega

theorem countExit_append (a b : List Event) :
    countExit (a ++ b) = countExit a + countExit b := by
  induction a with
  | nil => simp [countExit]
  | cons e t ih =>
      cases e <;> simp [countExit, ih]
      omega

theorem depthRun_append (a b : List Event) : ∀ (d : Nat),
    depthRun d (a ++ b) = (depthRun d a).bind (fun e => depthRun e b) := by
  induction a with
  | nil => intro d; simp [depthRun]
  | cons e t ih =>
      intro d
      cases e with
      | enter => simp [depthRun, ih]
      | exit => cases d <;> simp [depthRun, ih]

mutual

/-- The trace of any visit is balanced: run from any depth, it never
underflows and returns to the same depth. -/
theorem visit_depth : ∀ (s : TState) (st : Stmt) (d : Nat),
    depthRun d (visit s st).2.2 = some d
  | s, .classdef n dl b p, d => by
      have h := visit_depth_scope s ScopeType.classType n b d
      simpa [visit, visit_ClassDef, generic_visit] using h
  | s, .functiondef n a r dl b p, d => by
      have h := visit_depth_scope s ScopeType.functionType n b d
      simp only [visit, visit_FunctionDef, generic_visit]
      exact h
  | s, .importfrom m ns p, d => by simp [visit, generic_visit, depthRun]
  | s, .exprConstant p, d => by simp [visit, generic_visit, depthRun]
  | s, .stmtOther b p, d => by
      have h := visitList_depth s b d
      simp [visit, generic_visit, h]
termination_by s st d => (stmtSize st, 1)
decreasing_by
  · exact Prod.Lex.left _ _ (by simp [stmtSize])
  · exact Prod.Lex.left _ _ (by simp [stmtSize])
  · exact Prod.Lex.left _ _ (by simp [stmtSize])

/-- Auxiliary for the two scope-declaring cases: the wrapped trace
`enter :: tr ++ [exit]` runs from `d` back to `d`. -/
theorem visit_depth_scope : ∀ (s : TState) (k : ScopeType) (n : String)
    (b : List Stmt) (d : Nat),
    depthRun d (Event.enter :: ((visitList { s with
      scope_name := s.scope_name ++ "." ++ n,
      scope_stack := k :: s.scope_stack } b).2.2 ++ [Event.exit])) = some d
  | s, k, n, b, d => by
      have h := visitList_depth { s with
        scope_name := s.scope_name ++ "." ++ n,
        scope_stack := k :: s.scope_stack } b (d + 1)
      simp [depthRun, depthRun_append, h]
termination_by s k n b d => (listSize b, 3)
decreasing_by
  exact lexStep (Nat.le_refl _) (by omega)

/-- The trace of a statement list visit is balanced. -/
theorem visitList_depth : ∀ (s : TState) (l : List Stmt) (d : Nat),
    depthRun d (visitList s l).2.2 = some d
  | s, [], d => by simp [visitList, depthRun]
  | s, st :: rest, d => by
      have h1 := visit_depth s st d
      have h2 := visitList_depth (visit s st).2.1 rest d
      simp [visitList, depthRun_append, h1, h2]
termination_by s l d => (listSize l, 2)
decreasing_by
  · exact lexStep (by simp [listSize]) (by omega)
  · exact Prod.Lex.left _ _ (by have := stmtSize_pos st; simp [listSize]; omega)

end

mutual

/-- Every visit records exactly as many scope pushes as pops. -/
theorem visit_counts : ∀ (s : TState) (st : Stmt),
    countEnter (visit s st).2.2 = countExit (visit s st).2.2
  | s, .classdef n dl b p => by
      have h := visitList_counts { s with
        scope_name := s.scope_name ++ "." ++ n,
        scope_stack := ScopeType.classType :: s.scope_stack } b
      simp [visit, visit_ClassDef, generic_visit, countEnter, countExit,
        countEnter_append, countExit_append, h]
  | s, .functiondef n a r dl b p => by
      have h := visitList_counts { s with
        scope_name := s.scope_name ++ "." ++ n,
        scope_stack := ScopeType.functionType :: s.scope_stack } b
      simp [visit, visit_FunctionDef, generic_visit, countEnter, countExit,
        countEnter_append, countExit_append, h]
  | s, .importfrom m ns p => by simp [visit, generic_visit, countEnter, countExit]
  | s, .exprConstant p => by simp [visit, generic_visit, countEnter, countExit]
  | s, .stmtOther b p => by
      have h := visitList_counts s b
      simp [visit, generic_visit, h]
termination_by s st => (stmtSize st, 0)
decreasing_by
  all_goals exact Prod.Lex.left _ _ (by simp [stmtSize])

/-- A statement list visit records exactly as many scope pushes as pops. -/
theorem visitList_counts : ∀ (s : TState) (l : List Stmt),
    countEnter (visitList s l).2.2 = countExit (visitList s l).2.2
  | s, [] => by simp [visitList, countEnter, countExit]
  | s, st :: rest => by
      have h1 := visit_counts s st
      have h2 := visitList_counts (visit s st).2.1 rest
      simp [visitList, countEnter_append, countExit_append, h1, h2]
termination_by s l => (listSize l, 1)
decreasing_by
  · exact lexStep (by simp [listSize]) (by omega)
  · exact Prod.Lex.left _ _ (by have := stmtSize_pos st; simp [listSize]; omega)

end

/-- A module transformation restores the transformer state. -/
theorem visit_Module_state (s : TState) (m : ModuleNode) :
    (visit_Module s m).2.1 = s := by
  simp [visit_Module, visitList_state]

/-- A module transformation records as many pushes as pops. -/
theorem visit_Module_counts (s : TState) (m : ModuleNode) :
    countEnter (visit_Module s m).2.2 = countExit (visit_Module s m).2.2 := by
  simp [visit_Module, visitList_counts]

/-- The trace of a module transformation is balanced at any depth. -/
theorem visit_Module_depth (s : TState) (m : ModuleNode) (d : Nat) :
    depthRun d (visit_Module s m).2.2 = some d := by
  simp [visit_Module, visitList_depth]

/-- C8: for every input tree, a full traversal performs exactly as many
scope-stack pushes as pops: starting from the initial transformer state
(empty scope stack, scope name equal to the module name), the state after
transforming any module is the initial state again, so the stack is empty
before and after and the final scope name equals the module name; the
push count of the recorded trace equals its pop count; the trace run from
depth zero never underflows and returns to depth zero, so at every point
of the traversal the stack depth equals the current nesting depth of
class and function scopes; and after any scope-introducing node is fully
visited the state, in particular the fully-qualified scope name, is
restored to its value on entry. -/
theorem C8_scope_discipline :
    (∀ (conf : Nat) (module_name : String) (m : ModuleNode),
      (visit_Module ⟨conf, module_name, module_name, []⟩ m).2.1 =
        ⟨conf, module_name, module_name, []⟩ ∧
      (visit_Module ⟨conf, module_name, module_name, []⟩ m).2.1.scope_stack = [] ∧
      (visit_Module ⟨conf, module_name, module_name, []⟩ m).2.1.scope_name =
        module_name ∧
      countEnter (visit_Module ⟨conf, module_name, module_name, []⟩ m).2.2 =
        countExit (visit_Module ⟨conf, module_name, module_name, []⟩ m).2.2 ∧
      depthRun 0 (visit_Module ⟨conf, module_name, module_name, []⟩ m).2.2 =
        some 0) ∧
    (∀ (s : TState) (st : Stmt), (visit s st).2.1 = s) := by
  constructor
  · intro conf module_name m
    refine ⟨visit_Module_state _ _, ?_, ?_, visit_Module_counts _ _,
      visit_Module_depth _ _ 0⟩
    · rw [visit_Module_state]
    · rw [visit_Module_state]
  · exact visit_state

theorem beartypeDecoCount_decorate (d : List Decoration) (conf : Nat) (pos : Pos) :
    beartypeDecoCount (_decorate_node_beartype d conf pos) =
      beartypeDecoCount d + 1 := by
  simp [beartypeDecoCount, _decorate_node_beartype, decoIsBeartype,
    List.filter_append]

theorem beartypeDecoCount_eq_zero {d : List Decoration}
    (h : d.all (fun x => !decoIsBeartype x) = true) : beartypeDecoCount d = 0 := by
  simp only [List.all_eq_true, Bool.not_eq_true'] at h
  simp [beartypeDecoCount, List.length_eq_zero, List.filter_eq_nil_iff]
  exact fun a ha => by simp [h a ha]

theorem pristineList_mem : ∀ {l : List Stmt}, pristineList l = true →
    ∀ st ∈ l, pristineStmt st = true
  | [], _, st, hst => by simp at hst
  | a :: as, h, st, hst => by
      simp [pristineList] at h
      rcases List.mem_cons.mp hst with rfl | hmem
      · exact h.1
      · exact pristineList_mem h.2 st hmem

theorem pristineList_insertIdx (x : Stmt) (hx : pristineStmt x = true) :
    ∀ (i : Nat) (l : List Stmt), pristineList l = true →
      pristineList (List.insertIdx i x l) = true
  | 0, l, h => by simp [List.insertIdx_zero, pristineList, hx, h]
  | i + 1, [], _ => by simp [List.insertIdx_succ_nil, pristineList]
  | i + 1, a :: as, h => by
      simp [pristineList] at h
      rw [List.insertIdx_succ_cons]
      simp only [pristineList, Bool.and_eq_true]
      exact ⟨h.1, pristineList_insertIdx x hx i as h.2⟩

mutual

/-- Visiting a pristine statement yields a tree in which every class node
carries exactly one beartype decoration reference. -/
theorem classes_visit : ∀ (s : TState) (st : Stmt), pristineStmt st = true →
    classesDecoratedOnce (visit s st).1 = true
  | s, .classdef n d b p, h => by
      simp only [pristineStmt, Bool.and_eq_true] at h
      have hb := classes_list { s with
        scope_name := s.scope_name ++ "." ++ n,
        scope_stack := ScopeType.classType :: s.scope_stack } b h.2
      simp [visit, visit_ClassDef, generic_visit, classesDecoratedOnce,
        beartypeDecoCount_decorate, beartypeDecoCount_eq_zero h.1, hb]
  | s, .functiondef n a r d b p, h => by
      simp only [pristineStmt, Bool.and_eq_true] at h
      have hb := classes_list { s with
        scope_name := s.scope_name ++ "." ++ n,
        scope_stack := ScopeType.functionType :: s.scope_stack } b h.2
      simp [visit, visit_FunctionDef, generic_visit, classesDecoratedOnce, hb]
  | s, .importfrom m ns p, h => by
      simp [visit, generic_visit, classesDecoratedOnce]
  | s, .exprConstant p, h => by
      simp [visit, generic_visit, classesDecoratedOnce]
  | s, .stmtOther b p, h => by
      simp only [pristineStmt, Bool.and_eq_true] at h
      have hb := classes_list s b h
      simp [visit, generic_visit, classesDecoratedOnce, hb]
termination_by s st h => (stmtSize st, 0)
decreasing_by
  all_goals exact Prod.Lex.left _ _ (by simp [stmtSize])

/-- Visiting a pristine statement list yields trees in which every class
node carries exactly one beartype decoration reference. -/
theorem classes_list : ∀ (s : TState) (l : List Stmt), pristineList l = true →
    classesList (visitList s l).1 = true
  | s, [], _ => by simp [visitList, classesList]
  | s, st :: rest, h => by
      simp [pristineList] at h
      have h1 := classes_visit s st h.1
      have h2 := classes_list (visit s st).2.1 rest h.2
      simp [visitList, classesList, h1, h2]
termination_by s l h => (listSize l, 1)
decreasing_by
  · exact lexStep (by simp [listSize]) (by omega)
  · exact Prod.Lex.left _ _ (by have := stmtSize_pos st; simp [listSize]; omega)

end

/-- Visiting any pristine statement while the immediate scope is a class
leaves its own decorator list free of beartype decoration references. -/
theorem funcOwn_visit (s : TState) (st : Stmt)
    (hs : _is_scope_class_beartype s = true) (h : pristineStmt st = true) :
    funcOwnUndecorated (visit s st).1 = true := by
  cases st with
  | functiondef n a r d b p =>
      simp only [pristineStmt, Bool.and_eq_true] at h
      simp [visit, visit_FunctionDef, generic_visit, funcOwnUndecorated, hs, h.1]
  | classdef n d b p =>
      simp [visit, visit_ClassDef, generic_visit, funcOwnUndecorated]
  | importfrom m ns p => simp [visit, generic_visit, funcOwnUndecorated]
  | exprConstant p => simp [visit, generic_visit, funcOwnUndecorated]
  | stmtOther b p => simp [visit, generic_visit, funcOwnUndecorated]

mutual

/-- Visiting a pristine statement yields a tree in which no direct method
of any class node carries a beartype decoration reference of its own. -/
theorem methods_visit : ∀ (s : TState) (st : Stmt), pristineStmt st = true →
    methodsUndecorated (visit s st).1 = true
  | s, .classdef n d b p, h => by
      simp only [pristineStmt, Bool.and_eq_true] at h
      have hb := methods_list { s with
        scope_name := s.scope_name ++ "." ++ n,
        scope_stack := ScopeType.classType :: s.scope_stack } b h.2
      have hall : ((visitList { s with
          scope_name := s.scope_name ++ "." ++ n,
          scope_stack := ScopeType.classType :: s.scope_stack } b).1.all
          funcOwnUndecorated) = true := by
        rw [visitList_eq_map]
        rw [List.all_map]
        rw [List.all_eq_true]
        intro st hst
        exact funcOwn_visit _ st (by simp [_is_scope_class_beartype])
          (pristineList_mem h.2 st hst)
      simp [visit, visit_ClassDef, generic_visit, methodsUndecorated, hb]
      simpa using hall
  | s, .functiondef n a r d b p, h => by
      simp only [pristineStmt, Bool.and_eq_true] at h
      have hb := methods_list { s with
        scope_name := s.scope_name ++ "." ++ n,
        scope_stack := ScopeType.functionType :: s.scope_stack } b h.2
      simp [visit, visit_FunctionDef, generic_visit, methodsUndecorated, hb]
  | s, .importfrom m ns p, h => by
      simp [visit, generic_visit, methodsUndecorated]
  | s, .exprConstant p, h => by
      simp [visit, generic_visit, methodsUndecorated]
  | s, .stmtOther b p, h => by
      simp only [pristineStmt, Bool.and_eq_true] at h
      have hb := methods_list s b h
      simp [visit, generic_visit, methodsUndecorated, hb]
termination_by s st h => (stmtSize st, 0)
decreasing_by
  all_goals exact Prod.Lex.left _ _ (by simp [stmtSize])

/-- `methods_visit` over a statement list. -/
theorem methods_list : ∀ (s : TState) (l : List Stmt), pristineList l = true →
    methodsList (visitList s l).1 = true
  | s, [], _ => by simp [visitList, methodsList]
  | s, st :: rest, h => by
      simp [pristineList] at h
      have h1 := methods_visit s st h.1
      have h2 := methods_list (visit s st).2.1 rest h.2
      simp [visitList, methodsList, h1, h2]
termination_by s l h => (listSize l, 1)
decreasing_by
  · exact lexStep (by simp [listSize]) (by omega)
  · exact Prod.Lex.left _ _ (by have := stmtSize_pos st; simp [listSize]; omega)

end

/-- C2: for every class definition node in the input tree (the input
being pristine, that is, not yet carrying beartype decoration
references), the transformer unconditionally attaches exactly one
beartype decoration reference to that class node itself, regardless of
the annotations of its members. -/
theorem C2_class_unconditionally_decorated (s : TState) (m : ModuleNode)
    (h : pristineList m.body = true) :
    classesList (visit_Module s m).1.body = true := by
  simp only [visit_Module]
  apply classes_list
  split
  · exact h
  · exact pristineList_insertIdx _ (by simp [make_node_importfrom, pristineStmt]) _ _ h

/-- Witness for C2: a module holding one class with a single untyped
method and one class with no members at all; after transformation every
class node carries exactly one beartype decoration reference. -/
theorem C2_class_unconditionally_decorated_witness :
    pristineList [
      Stmt.classdef "C" [] [
        Stmt.functiondef "f" [⟨"self", none⟩] none [] [Stmt.stmtOther [] ⟨3, 4⟩] ⟨2, 2⟩]
        ⟨1, 0⟩,
      Stmt.classdef "D" [] [] ⟨4, 0⟩] = true ∧
    classesList (visit_Module s0 ⟨[
      Stmt.classdef "C" [] [
        Stmt.functiondef "f" [⟨"self", none⟩] none [] [Stmt.stmtOther [] ⟨3, 4⟩] ⟨2, 2⟩]
        ⟨1, 0⟩,
      Stmt.classdef "D" [] [] ⟨4, 0⟩], ⟨1, 0⟩⟩).1.body = true :=
  ⟨by rfl, C2_class_unconditionally_decorated s0 _ (by rfl)⟩

/-- C1: for every class definition node visited during a transformation
run on a pristine input tree, no function definition node appearing
directly in that class body receives a beartype decoration reference of
its own, even when that function is typed: the scope-stack top being the
class node type makes `visit_FunctionDef` skip injection. -/
theorem C1_methods_never_self_decorated (s : TState) (m : ModuleNode)
    (h : pristineList m.body = true) :
    methodsList (visit_Module s m).1.body = true := by
  simp only [visit_Module]
  apply methods_list
  split
  · exact h
  · exact pristineList_insertIdx _ (by simp [make_node_importfrom, pristineStmt]) _ _ h

/-- Witness for C1: a module holding a class with one typed method; after
transformation the method still carries no beartype decoration reference
of its own. -/
theorem C1_methods_never_self_decorated_witness :
    pristineList [
      Stmt.classdef "C" [] [
        Stmt.functiondef "f" [⟨"self", none⟩] (some ("int")) []
          [Stmt.stmtOther [] ⟨3, 4⟩] ⟨2, 2⟩] ⟨1, 0⟩] = true ∧
    methodsList (visit_Module s0 ⟨[
      Stmt.classdef "C" [] [
        Stmt.functiondef "f" [⟨"self", none⟩] (some ("int")) []
          [Stmt.stmtOther [] ⟨3, 4⟩] ⟨2, 2⟩] ⟨1, 0⟩], ⟨1, 0⟩⟩).1.body = true :=
  ⟨by rfl, C1_methods_never_self_decorated s0 _ (by rfl)⟩

/-- C3: for every function definition node whose immediate enclosing
scope is not a class, `visit_FunctionDef` attaches a beartype decoration
reference to that node if and only if the node declares a return-type
annotation or at least one parameter-type annotation, leaving the
decorator list unchanged otherwise; in particular a function with an
annotated return type but unannotated parameters counts as typed, and a
function with zero annotations does not. -/
theorem C3_function_decorated_iff_typed (s : TState) (name : String)
    (args : List Arg) (ret : Option String) (decos : List Decoration)
    (body : List Stmt) (pos : Pos)
    (h : _is_scope_class_beartype s = false) :
    (∃ body', (visit_FunctionDef s name args ret decos body pos).1 =
      Stmt.functiondef name args ret
        (if is_node_callable_typed args ret
         then decos ++ [Decoration.beartype s.conf pos]
         else decos) body' pos) ∧
    is_node_callable_typed args ret =
      (ret.isSome || args.any (fun a => a.ann.isSome)) ∧
    is_node_callable_typed [⟨"x", none⟩] (some ("int")) = true ∧
    is_node_callable_typed [⟨"x", none⟩, ⟨"y", none⟩] none = false := by
  refine ⟨⟨(visitList { s with
    scope_name := s.scope_name ++ "." ++ name,
    scope_stack := ScopeType.functionType :: s.scope_stack } body).1, ?_⟩,
    rfl, by rfl, by rfl⟩
  by_cases ht : is_node_callable_typed args ret = true
  · simp [visit_FunctionDef, generic_visit, _decorate_node_beartype, h, ht]
  · simp only [Bool.not_eq_true] at ht
    simp [visit_FunctionDef, generic_visit, _decorate_node_beartype, h, ht]

/-- Witness for C3 at a module-level function with an annotated return
type and one unannotated parameter. -/
theorem C3_function_decorated_iff_typed_witness :
    _is_scope_class_beartype s0 = false ∧
    (∃ body', (visit_FunctionDef s0 "f" [⟨"x", none⟩] (some ("int")) [] [] ⟨1, 0⟩).1 =
      Stmt.functiondef "f" [⟨"x", none⟩] (some ("int"))
        (if is_node_callable_typed [⟨"x", none⟩] (some ("int"))
         then [] ++ [Decoration.beartype s0.conf ⟨1, 0⟩]
         else []) body' ⟨1, 0⟩) :=
  ⟨by rfl,
    (C3_function_decorated_iff_typed s0 "f" [⟨"x", none⟩] (some ("int")) [] [] ⟨1, 0⟩
      (by rfl)).1⟩

/-!
Lemmas on the preamble scan and the insertion performed by
`visit_Module`.
-/

/-- Visiting a docstring-like or future-import statement is the identity
on node, state and trace. -/
theorem visit_skip (s : TState) (st : Stmt) (h : is_skip_stmt st = true) :
    visit s st = (st, s, []) := by
  cases st <;> simp [is_skip_stmt] at h <;> simp [visit, generic_visit]

/-- Visiting a list of docstring-like or future-import statements is the
identity on nodes, state and trace. -/
theorem visitList_skip : ∀ (s : TState) (l : List Stmt),
    l.all is_skip_stmt = true → visitList s l = (l, s, [])
  | s, [], _ => by simp [visitList]
  | s, st :: rest, h => by
      simp only [List.all_cons, Bool.and_eq_true] at h
      simp [visitList, visit_skip s st h.1, visitList_skip s rest h.2]

theorem scan_index_le : ∀ l : List Stmt, scan_index l ≤ l.length
  | [] => by simp [scan_index]
  | st :: rest => by
      by_cases h : is_skip_stmt st = true
      · simpa [scan_index, h] using scan_index_le rest
      · simp [scan_index, h]

/-- The scan cursor equals the statement count exactly when every
statement is a docstring-like or future-import statement. -/
theorem scan_index_eq_length : ∀ l : List Stmt,
    scan_index l = l.length ↔ l.all is_skip_stmt = true
  | [] => by simp [scan_index]
  | st :: rest => by
      have ih := scan_index_eq_length rest
      by_cases h : is_skip_stmt st = true
      · simp only [scan_index, h, if_true, List.length_cons, List.all_cons,
          Bool.and_eq_true, true_and]
        constructor
        · intro hh
          exact ih.1 (by omega)
        · intro hh
          have := ih.2 hh
          omega
      · simp [scan_index, h]

/-- Every statement strictly before the scan cursor is skippable. -/
theorem scan_index_prefix_skip : ∀ (l : List Stmt) (j : Nat),
    j < scan_index l → ∃ st, l[j]? = some st ∧ is_skip_stmt st = true
  | [], j, h => by simp [scan_index] at h
  | a :: as, j, h => by
      by_cases ha : is_skip_stmt a = true
      · cases j with
        | zero => exact ⟨a, by simp, ha⟩
        | succ j' =>
            simp only [scan_index, ha, if_true] at h
            obtain ⟨st, h1, h2⟩ := scan_index_prefix_skip as j' (by omega)
            exact ⟨st, by simpa using h1, h2⟩
      · simp [scan_index, ha] at h

/-- The statement at the scan cursor, when it exists, is not skippable:
the scan stops at the first statement matching neither pattern. -/
theorem scan_index_stop : ∀ (l : List Stmt) (st : Stmt),
    l[scan_index l]? = some st → is_skip_stmt st = false
  | [], st, h => by simp at h
  | a :: as, st, h => by
      by_cases ha : is_skip_stmt a = true
      · simp only [scan_index, ha, if_true, List.getElem?_cons_succ] at h
        exact scan_index_stop as st h
      · have ha' : is_skip_stmt a = false := by simpa using ha
        simp [scan_index, ha'] at h
        rw [← h]
        exact ha'

/-- Elementwise view of the transformed statement list. -/
theorem getElem?_visitList (s : TState) (l : List Stmt) (i : Nat) :
    (visitList s l).1[i]? = (l[i]?).map (fun st => (visit s st).1) := by
  rw [visitList_eq_map, List.getElem?_map]

theorem getElem?_insertIdx_self (x : Stmt) (l : List Stmt) (i : Nat)
    (h : i ≤ l.length) : (List.insertIdx i x l)[i]? = some x := by
  have hlen : i < (List.insertIdx i x l).length := by
    rw [List.length_insertIdx _ _ h]
    omega
  rw [List.getElem?_eq_getElem hlen]
  rw [List.getElem_insertIdx_self _ _ _ h]

/-- Whenever the scan cursor differs from the statement count,
`visit_Module` puts at the cursor index the synthesized preamble import
node, whose position metadata comes from the `node_prev` the scan loop
stopped on. -/
theorem visit_Module_inserted (s : TState) (m : ModuleNode)
    (h : scan_index m.body ≠ m.body.length) :
    (visit_Module s m).1.body[scan_index m.body]? =
      some (make_node_importfrom preamble_module_name "*"
        (match m.body[scan_index m.body]? with
         | some st => stmtPos st
         | none => m.pos)) := by
  have hlt : scan_index m.body < m.body.length :=
    Nat.lt_of_le_of_ne (scan_index_le _) h
  simp only [visit_Module, if_neg h]
  rw [getElem?_visitList]
  rw [getElem?_insertIdx_self _ _ _ (Nat.le_of_lt hlt)]
  simp [make_node_importfrom, visit, generic_visit]

/-- A transformed statement is a preamble import node exactly when the
input statement is: the visitor preserves node kinds and never touches
any import statement. -/
theorem visit_preserves_preamble (s : TState) (st : Stmt) :
    is_preamble_stmt (visit s st).1 = is_preamble_stmt st := by
  cases st <;> simp [visit, visit_ClassDef, visit_FunctionDef, generic_visit,
    is_preamble_stmt]

theorem preambleCount_cons (st : Stmt) (rest : List Stmt) :
    preambleCount (st :: rest) =
      (if is_preamble_stmt st then 1 else 0) + preambleCount rest := by
  simp only [preambleCount, List.filter_cons]
  split
  · simp [Nat.add_comm]
  · simp

/-- Visiting a statement list preserves the number of preamble import
nodes at the top level. -/
theorem preambleCount_visitList : ∀ (s : TState) (l : List Stmt),
    preambleCount (visitList s l).1 = preambleCount l
  | s, [] => by simp [visitList, preambleCount]
  | s, st :: rest => by
      have h2 := preambleCount_visitList (visit s st).2.1 rest
      calc preambleCount (visitList s (st :: rest)).1
          = (if is_preamble_stmt (visit s st).1 then 1 else 0) +
            preambleCount (visitList (visit s st).2.1 rest).1 := by
            simp [visitList, preambleCount_cons]
        _ = (if is_preamble_stmt st then 1 else 0) + preambleCount rest := by
            rw [visit_preserves_preamble, h2]
        _ = preambleCount (st :: rest) := (preambleCount_cons st rest).symm

/-- Inserting a statement adds its own preamble count. -/
theorem preambleCount_insertIdx (x : Stmt) : ∀ (i : Nat) (l : List Stmt),
    i ≤ l.length → preambleCount (List.insertIdx i x l) =
      preambleCount l + (if is_preamble_stmt x then 1 else 0)
  | 0, l, _ => by
      rw [List.insertIdx_zero, preambleCount_cons]
      omega
  | i + 1, [], h => by simp at h
  | i + 1, a :: as, h => by
      rw [List.insertIdx_succ_cons, preambleCount_cons, preambleCount_cons,
        preambleCount_insertIdx x i as (by simpa using h)]
      omega

/-- C4, counterexample: reading the claim as the two-phase scan it
describes (one single leading docstring-only statement, then consecutive
future imports), the cursor for a module starting with two consecutive
constant expression statements would be 1; but the code skips every
leading statement matching either pattern, in any order and number, so it
inserts the preamble at index 2, not at index 1. -/
theorem C4_counterexample :
    claim_cursor [Stmt.exprConstant ⟨1, 0⟩, Stmt.exprConstant ⟨2, 0⟩,
      Stmt.stmtOther [] ⟨3, 0⟩] = 1 ∧
    scan_index [Stmt.exprConstant ⟨1, 0⟩, Stmt.exprConstant ⟨2, 0⟩,
      Stmt.stmtOther [] ⟨3, 0⟩] = 2 ∧
    ((visit_Module s0 ⟨[Stmt.exprConstant ⟨1, 0⟩, Stmt.exprConstant ⟨2, 0⟩,
      Stmt.stmtOther [] ⟨3, 0⟩], ⟨1, 0⟩⟩).1.body)[1]? =
      some (Stmt.exprConstant ⟨2, 0⟩) ∧
    ((visit_Module s0 ⟨[Stmt.exprConstant ⟨1, 0⟩, Stmt.exprConstant ⟨2, 0⟩,
      Stmt.stmtOther [] ⟨3, 0⟩], ⟨1, 0⟩⟩).1.body)[2]? =
      some (Stmt.importfrom (some preamble_module_name) ["*"] ⟨3, 0⟩) := by
  refine ⟨rfl, rfl, ?_, ?_⟩ <;>
    simp [visit_Module, scan_index, is_skip_stmt, make_node_importfrom,
      visitList, visit, generic_visit, stmtPos]

/-- C4, amended: the preamble-insertion cursor advances past every
leading statement that is a docstring-like constant expression statement
or a future import, in any order and number, and stops at the first
statement matching neither pattern; when the cursor differs from the
statement count, the preamble import is inserted exactly at the resulting
cursor index. -/
theorem C4_cursor_and_insertion (s : TState) (m : ModuleNode) :
    (∀ j, j < scan_index m.body →
      ∃ st, m.body[j]? = some st ∧ is_skip_stmt st = true) ∧
    (∀ st, m.body[scan_index m.body]? = some st → is_skip_stmt st = false) ∧
    (scan_index m.body ≠ m.body.length →
      (visit_Module s m).1.body[scan_index m.body]? =
        some (make_node_importfrom preamble_module_name "*"
          (match m.body[scan_index m.body]? with
           | some st => stmtPos st
           | none => m.pos))) :=
  ⟨fun j hj => scan_index_prefix_skip m.body j hj,
   fun st h => scan_index_stop m.body st h,
   fun h => visit_Module_inserted s m h⟩

/-- Witness for the amended C4: a module starting with a docstring-like
statement followed by a compound statement has cursor 1 and receives the
preamble import exactly there. -/
theorem C4_cursor_and_insertion_witness :
    (visit_Module s0 ⟨[Stmt.exprConstant ⟨1, 0⟩, Stmt.stmtOther [] ⟨2, 0⟩],
      ⟨1, 0⟩⟩).1.body[1]? =
      some (Stmt.importfrom (some preamble_module_name) ["*"] ⟨2, 0⟩) :=
  (C4_cursor_and_insertion s0
    ⟨[Stmt.exprConstant ⟨1, 0⟩, Stmt.stmtOther [] ⟨2, 0⟩], ⟨1, 0⟩⟩).2.2
    (by decide)

/-- C5: for a module whose statements are a docstring, then two future
statements of the `from __future__` shape, then a function definition,
`visit_Module` inserts the preamble node at index 3 of the module body,
immediately after the future statements and before the function. -/
theorem C5_preamble_at_index_three :
    ((visit_Module s0 ⟨[
      Stmt.exprConstant ⟨1, 0⟩,
      Stmt.importfrom (some ("__future__")) ["annotations"] ⟨2, 0⟩,
      Stmt.importfrom (some ("__future__")) ["division"] ⟨3, 0⟩,
      Stmt.functiondef "f" [] none [] [] ⟨4, 0⟩], ⟨1, 0⟩⟩).1.body)[3]? =
      some (Stmt.importfrom (some preamble_module_name) ["*"] ⟨4, 0⟩) ∧
    (visit_Module s0 ⟨[
      Stmt.exprConstant ⟨1, 0⟩,
      Stmt.importfrom (some ("__future__")) ["annotations"] ⟨2, 0⟩,
      Stmt.importfrom (some ("__future__")) ["division"] ⟨3, 0⟩,
      Stmt.functiondef "f" [] none [] [] ⟨4, 0⟩], ⟨1, 0⟩⟩).1.body.length = 5 ∧
    ((visit_Module s0 ⟨[
      Stmt.exprConstant ⟨1, 0⟩,
      Stmt.importfrom (some ("__future__")) ["annotations"] ⟨2, 0⟩,
      Stmt.importfrom (some ("__future__")) ["division"] ⟨3, 0⟩,
      Stmt.functiondef "f" [] none [] [] ⟨4, 0⟩], ⟨1, 0⟩⟩).1.body)[4]? =
      some ( Stmt.functiondef "f" [] none [] [] ⟨4, 0⟩) := by
  refine ⟨?_, ?_, ?_⟩ <;>
    simp [visit_Module, scan_index, is_skip_stmt, make_node_importfrom,
      visitList, visit, visit_FunctionDef, generic_visit, stmtPos,
      is_node_callable_typed, _is_scope_class_beartype, _decorate_node_beartype]

/-- C6: a module whose statements are all docstring-like or of the
future shape (the scan cursor equalling the statement count) is returned
entirely unchanged by `visit_Module`; and on any input without
preexisting preamble import nodes the transformed module body holds
exactly one preamble import node, except exactly in that trivial case,
where it holds zero. -/
theorem C6_trivial_module_skips_insertion :
    (∀ (s : TState) (m : ModuleNode), m.body.all is_skip_stmt = true →
      (visit_Module s m).1 = m) ∧
    (∀ (s : TState) (m : ModuleNode), preambleCount m.body = 0 →
      preambleCount (visit_Module s m).1.body =
        if m.body.all is_skip_stmt then 0 else 1) := by
  constructor
  · intro s m h
    have hi : scan_index m.body = m.body.length := (scan_index_eq_length _).2 h
    simp [visit_Module, if_pos hi, visitList_skip s m.body h]
  · intro s m h
    by_cases hall : m.body.all is_skip_stmt = true
    · have hi : scan_index m.body = m.body.length := (scan_index_eq_length _).2 hall
      simp [visit_Module, if_pos hi, preambleCount_visitList, h, hall]
    · have hi : scan_index m.body ≠ m.body.length :=
        fun hh => hall ((scan_index_eq_length _).1 hh)
      simp only [visit_Module, if_neg hi]
      rw [preambleCount_visitList,
        preambleCount_insertIdx _ _ _ (scan_index_le m.body), h]
      simp [hall, make_node_importfrom, is_preamble_stmt, preamble_module_name]

/-- Witness for C6: a docstring-only module is untouched; a module with
one compound statement and no preexisting preamble ends up with the
claimed preamble count. -/
theorem C6_trivial_module_skips_insertion_witness :
    ((visit_Module s0 ⟨[Stmt.exprConstant ⟨1, 0⟩], ⟨1, 0⟩⟩).1 =
      ⟨[Stmt.exprConstant ⟨1, 0⟩], ⟨1, 0⟩⟩) ∧
    (preambleCount (visit_Module s0 ⟨[Stmt.stmtOther [] ⟨1, 0⟩], ⟨1, 0⟩⟩).1.body =
      if [Stmt.stmtOther [] ⟨1, 0⟩].all is_skip_stmt then 0 else 1) :=
  ⟨C6_trivial_module_skips_insertion.1 s0 _ (by rfl),
   C6_trivial_module_skips_insertion.2 s0 _ (by rfl)⟩

/-- C7, counterexample: when the preamble import is inserted at index 0
(a module starting directly with a function definition), its position
metadata is copied from the statement at index 0 — here line 3 — and not
from the module node itself, whose metadata (line 7) differs: the module
node is only the default sibling for an empty body, and an empty body
never triggers an insertion. -/
theorem C7_counterexample :
    scan_index [ Stmt.functiondef "f" [] none [] [] ⟨3, 0⟩] = 0 ∧
    ((visit_Module s0 ⟨[ Stmt.functiondef "f" [] none [] [] ⟨3, 0⟩],
      ⟨7, 7⟩⟩).1.body)[0]? =
      some (Stmt.importfrom (some preamble_module_name) ["*"] ⟨3, 0⟩) ∧
    (⟨3, 0⟩ : Pos) ≠ (⟨7, 7⟩ : Pos) := by
  refine ⟨rfl, ?_, by decide⟩
  simp [visit_Module, scan_index, is_skip_stmt, make_node_importfrom,
    visitList, visit, visit_FunctionDef, generic_visit, stmtPos,
    is_node_callable_typed, _is_scope_class_beartype, _decorate_node_beartype]

/-- C7, amended: whenever the preamble import is inserted, its position
metadata is copied from the statement at the insertion index (the sibling
it is inserted before), including at index 0; the module node itself is
never the source of the copied metadata, since insertion requires a
nonempty body. -/
theorem C7_metadata_from_sibling (s : TState) (m : ModuleNode)
    (h : scan_index m.body ≠ m.body.length) :
    ∃ st, m.body[scan_index m.body]? = some st ∧
      (visit_Module s m).1.body[scan_index m.body]? =
        some (Stmt.importfrom (some preamble_module_name) ["*"] (stmtPos st)) := by
  have hlt : scan_index m.body < m.body.length :=
    Nat.lt_of_le_of_ne (scan_index_le _) h
  have hsome : m.body[scan_index m.body]? = some (m.body[scan_index m.body]) :=
    List.getElem?_eq_getElem hlt
  refine ⟨m.body[scan_index m.body], hsome, ?_⟩
  have hins := visit_Module_inserted s m h
  rw [hsome] at hins
  simpa [make_node_importfrom] using hins

/-- Witness for the amended C7: a module starting directly with a
function definition on line 5 receives a preamble import carrying the
metadata of that function definition. -/
theorem C7_metadata_from_sibling_witness :
    ∃ st, ([ Stmt.functiondef "g" [] none [] [] ⟨5, 2⟩] :
        List Stmt)[(0 : Nat)]? = some st ∧
      (visit_Module s0 ⟨[ Stmt.functiondef "g" [] none [] [] ⟨5, 2⟩],
        ⟨9, 9⟩⟩).1.body[(0 : Nat)]? =
        some (Stmt.importfrom (some preamble_module_name) ["*"] (stmtPos st)) :=
  C7_metadata_from_sibling s0
    ⟨[ Stmt.functiondef "g" [] none [] [] ⟨5, 2⟩], ⟨9, 9⟩⟩ (by decide)

/-- C9: for a lambda whose declaring file is readable, nonempty and not
oversized, when the visitor collects two or more lambda texts starting on
the recorded first line, `get_func_code_or_none` returns the text of the
first lambda encountered in the fixed pre-order traversal together with
exactly one ambiguity warning — a non-fatal outcome, never an error. -/
theorem C9_ambiguity_warns_and_picks_first (env : FuncEnv) (code c c2 : String)
    (rest : List String)
    (h1 : env.is_lambda = true) (h2 : env.file_code = some code)
    (h3 : code.length ≠ 0) (h4 : code.length < _LAMBDA_CODE_FILESIZE_MAX)
    (h5 : visit_Lambda env.firstlineno env.parsed = c :: c2 :: rest) :
    get_func_code_or_none env = (some c, [WarnKind.ambiguous]) := by
  simp [get_func_code_or_none, h1, h2, h3, Nat.not_le.2 h4, h5]

/-- Witness for C9: a file whose line 5 declares two lambdas; the first
one in pre-order is returned and the ambiguity warning is emitted. -/
theorem C9_ambiguity_warns_and_picks_first_witness :
    get_func_code_or_none ⟨true, 5, some ("x = (lambda a: a, lambda b: b)"),
      LTree.node [LTree.lam 5 "lambda a: a" [], LTree.lam 5 "lambda b: b" []],
      some ("fallback lines")⟩ =
      (some ("lambda a: a"), [WarnKind.ambiguous]) :=
  C9_ambiguity_warns_and_picks_first
    ⟨true, 5, some ("x = (lambda a: a, lambda b: b)"),
      LTree.node [LTree.lam 5 "lambda a: a" [], LTree.lam 5 "lambda b: b" []],
      some ("fallback lines")⟩
    "x = (lambda a: a, lambda b: b)" "lambda a: a" "lambda b: b" []
    rfl rfl (by decide) (by decide) (by rfl)

/-- C10: for a lambda whose declaring file has length at least the
1,000,000-character maximum, `get_func_code_or_none` emits the file-size
warning and returns the line-oriented fallback; the result does not
depend on the parsed tree at all, so the parse branch is unreachable for
such files. -/
theorem C10_oversized_file_never_parsed (env : FuncEnv) (code : String)
    (h1 : env.is_lambda = true) (h2 : env.file_code = some code)
    (h3 : _LAMBDA_CODE_FILESIZE_MAX ≤ code.length) :
    get_func_code_or_none env = (env.fallback, [WarnKind.filesize]) ∧
    ∀ t : LTree, get_func_code_or_none { env with parsed := t } =
      (env.fallback, [WarnKind.filesize]) := by
  have hne : code.length ≠ 0 := by
    intro hh
    rw [hh] at h3
    simp [_LAMBDA_CODE_FILESIZE_MAX] at h3
  constructor
  · simp [get_func_code_or_none, h1, h2, hne, h3]
  · intro t
    simp [get_func_code_or_none, h1, h2, hne, h3]

/-- Witness for C10: a file of exactly 1,000,000 characters triggers the
file-size warning and the fallback result. -/
theorem C10_oversized_file_never_parsed_witness :
    get_func_code_or_none ⟨true, 1,
      some (String.mk (List.replicate 1000000 ('a' : Char))), LTree.node [],
      some ("fallback lines")⟩ =
      (some ("fallback lines"), [WarnKind.filesize]) :=
  (C10_oversized_file_never_parsed
    ⟨true, 1, some (String.mk (List.replicate 1000000 ('a' : Char))),
      LTree.node [], some ("fallback lines")⟩
    (String.mk (List.replicate 1000000 ('a' : Char))) rfl rfl
    (by
      have hl : (String.mk (List.replicate 1000000 ('a' : Char))).length = 1000000 := by
        rw [show (String.mk (List.replicate 1000000 ('a' : Char))).length =
            (List.replicate 1000000 ('a' : Char)).length from rfl,
          List.length_replicate]
      rw [hl]
      exact Nat.le_refl 1000000)).1

end Beartype
